import Mathlib

/-!
Verification of the fabric-director failover control loop (src/main.go)
against its natural-language specification.

The Go program is shallowly embedded below. Pure helpers become Lean
functions; the kernel/netlink boundary becomes explicit state passing over a
`SysState` record together with a trace of attempted operations; fallible Go
calls return `Except`. `time.Duration` values are nanosecond counts (`Int`);
`float64` loss values are rationals (only order comparisons occur). Go maps
are association lists carrying one concrete iteration order (Go map iteration
order is unspecified); loop variables are per-iteration values.
-/

namespace FabricDirector

/-- Go error values are modelled as their message strings. -/
abbrev GoError := String

/-- Node represents an edge node (src/main.go `Node`): YAML id and ip plus the
mutable `Latency` field, modelled as a count of nanoseconds. -/
structure Node where
  id : Nat
  ip : String
  latency : Int
  deriving Repr, DecidableEq

/-- Go `internalIP` (src/main.go:84): the GRE internal IP of a node,
`fmt.Sprintf` of the configured address stem followed by the node ID, with a
`/mask` suffix appended when mask is nonzero. -/
def internalIP (pre : String) (node mask : Nat) : String :=
  let out := pre ++ toString node
  if mask ≠ 0 then out ++ "/" ++ toString mask else out

/-- A route prefix string as the Go code sees it after `net.ParseCIDR`:
a valid IPv4 CIDR, a valid IPv6 CIDR, or a malformed string. The Go code
distinguishes the families via `ipNet.IP.To4() != nil`. -/
inductive Pfx where
  | v4 (dst : String)
  | v6 (dst : String)
  | bad (raw : String)
  deriving Repr, DecidableEq

/-- Result of `net.ParseCIDR` on a `Pfx`: the network destination paired with
an IPv4 flag; `none` models a parse error. -/
def Pfx.parse : Pfx → Option (Bool × String)
  | .v4 d => some (true, d)
  | .v6 d => some (false, d)
  | .bad _ => none

/-- Kernel-visible state at the netlink boundary, plus the Prometheus
rerouting gauge: the link names present, the installed static routes as
(destination, gateway) pairs, and the value of `metricIsRerouting`. -/
structure SysState where
  links : List String
  routes : List (String × String)
  rerouteMetric : Nat
  deriving Repr, DecidableEq

/-- Environment for the one opaque external action: whether running
`/opt/packetframe/net.sh` (`setPFNet true`) succeeds. -/
structure Env where
  netShOk : Bool
  deriving Repr, DecidableEq

/-- Externally visible operations attempted by the reroute controller, in
program order. -/
inductive Ev where
  | setMetric (v : Nat)
  | linkDel (name : String)
  | runNetSh
  | routeAdd (dst gw : String)
  | routeDel (dst : String)
  deriving Repr, DecidableEq

/-- `netlink.LinkDel`: deleting a link fails ("Link not found") when no link
of that name exists; link names are unique in the kernel. -/
def linkDelOp (s : SysState) (name : String) : SysState × Except GoError Unit :=
  if name ∈ s.links then
    ({ s with links := s.links.filter (fun l => l ≠ name) }, .ok ())
  else (s, .error "Link not found")

/-- `netlink.RouteAdd`: adding a route whose destination already carries a
route (same table and priority, as for all routes here) fails with EEXIST
("file exists"). -/
def routeAddOp (s : SysState) (dst gw : String) : SysState × Except GoError Unit :=
  if s.routes.any (fun r => r.1 = dst) then (s, .error "file exists")
  else ({ s with routes := s.routes ++ [(dst, gw)] }, .ok ())

/-- `netlink.RouteDel` by destination: fails with ESRCH ("no such process")
when no route to that destination exists. -/
def routeDelOp (s : SysState) (dst : String) : SysState × Except GoError Unit :=
  if s.routes.any (fun r => r.1 = dst) then
    ({ s with routes := s.routes.filter (fun r => r.1 ≠ dst) }, .ok ())
  else (s, .error "no such process")

/-- Go `setPFNet` (src/main.go:154): state=true runs the external script
`/opt/packetframe/net.sh` — modelled from the spec as the opaque action
re-enabling local handling (here: restoring the `local` link), succeeding iff
the environment says so; state=false deletes the dummy link named "local". -/
def setPFNet (env : Env) (state : Bool) (s : SysState) :
    List Ev × SysState × Except GoError Unit :=
  if state then
    if env.netShOk then
      ([.runNetSh],
       { s with links := if "local" ∈ s.links then s.links else "local" :: s.links },
       .ok ())
    else ([.runNetSh], s, .error "net.sh failed")
  else
    let r := linkDelOp s "local"
    ([.linkDel "local"], r.1, r.2)

/-- Go `addRoute` (src/main.go:131): parse the prefix, choose the IPv4 or the
IPv6 nexthop by the prefix's address family, and RouteAdd with priority 1. -/
def addRoute (s : SysState) (p : Pfx) (nexthop4 nexthop6 : String) :
    List Ev × SysState × Except GoError Unit :=
  match p.parse with
  | none => ([], s, .error "invalid CIDR address")
  | some fd =>
    let nexthop := if fd.1 then nexthop4 else nexthop6
    let r := routeAddOp s fd.2 nexthop
    ([.routeAdd fd.2 nexthop], r.1, r.2)

/-- The install loop of `setReroute` (reroute=true): add one route per
configured prefix in order, returning at the first error. -/
def installRoutes : SysState → List Pfx → String → String →
    List Ev × SysState × Except GoError Unit
  | s, [], _, _ => ([], s, .ok ())
  | s, p :: rest, nh4, nh6 =>
    let step := addRoute s p nh4 nh6
    match step.2.2 with
    | .error e => (step.1, step.2.1, .error e)
    | .ok _ =>
      let cont := installRoutes step.2.1 rest nh4 nh6
      (step.1 ++ cont.1, cont.2.1, cont.2.2)

/-- The removal loop of `setReroute` (reroute=false): ParseCIDR each prefix
and RouteDel its destination, returning at the first error. -/
def removeRoutes : SysState → List Pfx → List Ev × SysState × Except GoError Unit
  | s, [] => ([], s, .ok ())
  | s, p :: rest =>
    match p.parse with
    | none => ([], s, .error "invalid CIDR address")
    | some fd =>
      let step := routeDelOp s fd.2
      match step.2 with
      | .error e => ([.routeDel fd.2], step.1, .error e)
      | .ok _ =>
        let cont := removeRoutes step.1 rest
        (.routeDel fd.2 :: cont.1, cont.2.1, cont.2.2)

/-- Go `setReroute` (src/main.go:163): reroute=true sets the gauge to 1,
disables local handling (`setPFNet false`), then installs one route per
prefix; reroute=false removes the per-prefix routes, re-enables local
handling (`setPFNet true`), then sets the gauge to 0. Every step's error is
returned immediately. -/
def setReroute (env : Env) (reroute : Bool) (ps : List Pfx)
    (nexthop4 nexthop6 : String) (s : SysState) :
    List Ev × SysState × Except GoError Unit :=
  if reroute then
    let s0 := { s with rerouteMetric := 1 }
    let pf := setPFNet env false s0
    match pf.2.2 with
    | .error e => (.setMetric 1 :: pf.1, pf.2.1, .error e)
    | .ok _ =>
      let inst := installRoutes pf.2.1 ps nexthop4 nexthop6
      (.setMetric 1 :: (pf.1 ++ inst.1), inst.2.1, inst.2.2)
  else
    let rem := removeRoutes s ps
    match rem.2.2 with
    | .error e => (rem.1, rem.2.1, .error e)
    | .ok _ =>
      let pf := setPFNet env true rem.2.1
      match pf.2.2 with
      | .error e => (rem.1 ++ pf.1, pf.2.1, .error e)
      | .ok _ =>
        (rem.1 ++ pf.1 ++ [.setMetric 0], { pf.2.1 with rerouteMetric := 0 }, .ok ())

/-- Loop body of Go `closestNode` (src/main.go:193): keep the entry with
strictly smaller latency, so the first entry encountered wins ties. -/
def closestStep (acc : Option Node × String) (entry : String × Node) :
    Option Node × String :=
  match acc.1 with
  | none => (some entry.2, entry.1)
  | some c => if entry.2.latency < c.latency then (some entry.2, entry.1) else acc

/-- Go `closestNode`: scan the candidate map in its iteration order (the list
order here) and return the retained node and name; (none, "") on an empty
map. -/
def closestNode (cands : List (String × Node)) : Option Node × String :=
  cands.foldl closestStep (none, "")

/-- Go `strings.HasPrefix`, modelled on the strings' character lists. -/
def hasPrefixStr (s pre : String) : Bool := pre.data.isPrefixOf s.data

/-- Go `teardownGRE` (src/main.go:206): walk the kernel's link list, deleting
every link whose name starts with "fd-", and return at the first deletion
error. `delOk` says whether the kernel accepts a given deletion. The first
component lists the deletions attempted, in order. -/
def teardownGRE (delOk : String → Bool) : List String → List String × Option GoError
  | [] => ([], none)
  | l :: rest =>
    if hasPrefixStr l "fd-" then
      if delOk l then
        let cont := teardownGRE delOk rest
        (l :: cont.1, cont.2)
      else ([l], some ("error deleting " ++ l))
    else teardownGRE delOk rest

/-- go-ping `Statistics.AvgRtt`: the mean round-trip time of the received
replies, 0 when none were received (Go integer division of durations). -/
def avgRtt (rtts : List Int) : Int :=
  if rtts.length = 0 then 0 else rtts.sum / (rtts.length : Int)

/-- go-ping `Statistics.PacketLoss`: the percentage of packets lost,
`float64(sent-received) / float64(sent) * 100`. -/
def packetLossPercent (sent received : Nat) : ℚ :=
  ((sent : ℚ) - (received : ℚ)) / (sent : ℚ) * 100

/-- Go `icmpLatency` (src/main.go:223): on a transport error (NewPinger or
Run failing) the triple (0, 0, err) is returned; otherwise the pinger's
statistics with no error. `sent` is the number of probes transmitted before
the 500 ms timeout, `rtts` the round-trip times of the replies received. -/
def icmpLatency (transportOk : Bool) (sent : Nat) (rtts : List Int) :
    Int × ℚ × Option GoError :=
  if transportOk then (avgRtt rtts, packetLossPercent sent rtts.length, none)
  else (0, 0, some "probe transport error")

/-- The configuration fields the failover loop reads (src/main.go `Config`). -/
structure Config where
  localID : Nat
  prefix4 : String
  prefix6 : String
  latencyThreshold : Int
  lossThreshold : ℚ
  prefixes : List Pfx
  nodes : List (String × Node)
  deriving Repr, DecidableEq

/-- Assignment `m[k] = v` on the Go map `candidateNodes`, modelled on an
association list carrying the iteration order. -/
def mapInsert (m : List (String × Node)) (k : String) (v : Node) :
    List (String × Node) :=
  if m.any (fun e => e.1 = k) then
    m.map (fun e => if e.1 = k then (k, v) else e)
  else m ++ [(k, v)]

/-- Go `delete(candidateNodes, name)`. -/
def mapErase (m : List (String × Node)) (k : String) : List (String × Node) :=
  m.filter (fun e => e.1 ≠ k)

/-- One peer's update in the probe-loop body (src/main.go:360-370). The probe
result is destructured into (latency, loss, err); an error is only logged,
and the threshold test then runs on whatever latency and loss values came
back — (0, 0) after an error. `node` is the peer's record from
`config.Nodes`, whose `Latency` field the loop overwrites before storing. -/
def tickUpdate (cfg : Config) (cands : List (String × Node)) (name : String)
    (node : Node) (probe : Int × ℚ × Option GoError) : List (String × Node) :=
  let latency := probe.1
  let loss := probe.2.1
  if latency ≤ cfg.latencyThreshold ∧ loss < cfg.lossThreshold then
    mapInsert cands name { node with latency := latency }
  else
    mapErase cands name

/-- Outcome of the /reroute HTTP handler: either a response body was written,
or the handler dereferenced a nil *Node and the request died in a panic. -/
inductive HandlerResult where
  | body (text : String)
  | nilPanic
  deriving Repr, DecidableEq

/-- Go `config.Nodes[to]`: a map read yielding the zero-valued Node when the
key is absent. -/
def goMapGet (m : List (String × Node)) (k : String) : Node :=
  (m.lookup k).getD { id := 0, ip := "", latency := 0 }

/-- The /reroute handler (src/main.go:307-328). With no `to` parameter it
takes `closestNode()` — a nil pointer when there are no candidates, which the
handler dereferences unconditionally (`node.ID`); with a `to` parameter it
reads `config.Nodes[to]`, the zero value on a miss. It then calls
`setReroute` toward `internalIP(prefix, node.ID, 0)` for both families and
writes the success or the error body. -/
def rerouteHandler (cfg : Config) (cands : List (String × Node))
    (toParam : String) (env : Env) (s : SysState) : HandlerResult × SysState :=
  let target : Option (Node × String) :=
    if toParam = "" then
      match closestNode cands with
      | (none, _) => none
      | (some n, name) => some (n, name)
    else some (goMapGet cfg.nodes toParam, toParam)
  match target with
  | none => (.nilPanic, s)
  | some nt =>
    let r := setReroute env true cfg.prefixes
      (internalIP cfg.prefix4 nt.1.id 0) (internalIP cfg.prefix6 nt.1.id 0) s
    match r.2.2 with
    | .ok _ => (.body ("Rerouting to " ++ nt.2 ++ "\n"), r.2.1)
    | .error e =>
      (.body ("Error rerouting to " ++ nt.2 ++ ": " ++ e ++ "\n"), r.2.1)

/-! Helper lemmas about the route-install and route-removal loops. -/

theorem addRoute_trace (s : SysState) (p : Pfx) (nh4 nh6 : String) :
    ∀ e ∈ (addRoute s p nh4 nh6).1, ∃ d g, e = Ev.routeAdd d g := by
  intro e he
  cases p with
  | v4 d => simp [addRoute, Pfx.parse] at he; exact ⟨d, nh4, he⟩
  | v6 d => simp [addRoute, Pfx.parse] at he; exact ⟨d, nh6, he⟩
  | bad r => simp [addRoute, Pfx.parse] at he

theorem addRoute_links (s : SysState) (p : Pfx) (nh4 nh6 : String) :
    (addRoute s p nh4 nh6).2.1.links = s.links := by
  cases p <;> simp only [addRoute, Pfx.parse, routeAddOp] <;> try rfl
  all_goals split <;> rfl

theorem addRoute_metric (s : SysState) (p : Pfx) (nh4 nh6 : String) :
    (addRoute s p nh4 nh6).2.1.rerouteMetric = s.rerouteMetric := by
  cases p <;> simp only [addRoute, Pfx.parse, routeAddOp] <;> try rfl
  all_goals split <;> rfl

theorem addRoute_routes_mono (s : SysState) (p : Pfx) (nh4 nh6 : String) :
    ∃ add, (addRoute s p nh4 nh6).2.1.routes = s.routes ++ add := by
  cases p with
  | v4 d =>
    simp only [addRoute, Pfx.parse, routeAddOp]
    split
    · exact ⟨[], by simp⟩
    · exact ⟨[(d, nh4)], by simp⟩
  | v6 d =>
    simp only [addRoute, Pfx.parse, routeAddOp]
    split
    · exact ⟨[], by simp⟩
    · exact ⟨[(d, nh6)], by simp⟩
  | bad r => exact ⟨[], by simp [addRoute, Pfx.parse]⟩

theorem addRoute_ok (s : SysState) (p : Pfx) (nh4 nh6 : String)
    (h : (addRoute s p nh4 nh6).2.2 = .ok ()) :
    ∃ fd nh, p.parse = some fd ∧
      (addRoute s p nh4 nh6).2.1.routes = s.routes ++ [(fd.2, nh)] := by
  cases p with
  | v4 d =>
    refine ⟨(true, d), nh4, rfl, ?_⟩
    simp only [addRoute, Pfx.parse, routeAddOp] at h ⊢
    split at h
    · simp at h
    · simp_all [routeAddOp]
  | v6 d =>
    refine ⟨(false, d), nh6, rfl, ?_⟩
    simp only [addRoute, Pfx.parse, routeAddOp] at h ⊢
    split at h
    · simp at h
    · simp_all [routeAddOp]
  | bad r => simp [addRoute, Pfx.parse] at h

theorem installRoutes_links (ps : List Pfx) :
    ∀ (s : SysState) (nh4 nh6 : String),
      (installRoutes s ps nh4 nh6).2.1.links = s.links := by
  induction ps with
  | nil => intro s nh4 nh6; rfl
  | cons p rest ih =>
    intro s nh4 nh6
    simp only [installRoutes]
    rcases h : (addRoute s p nh4 nh6).2.2 with er | u
    · simpa using addRoute_links s p nh4 nh6
    · simpa [ih] using addRoute_links s p nh4 nh6

theorem installRoutes_metric (ps : List Pfx) :
    ∀ (s : SysState) (nh4 nh6 : String),
      (installRoutes s ps nh4 nh6).2.1.rerouteMetric = s.rerouteMetric := by
  induction ps with
  | nil => intro s nh4 nh6; rfl
  | cons p rest ih =>
    intro s nh4 nh6
    simp only [installRoutes]
    rcases h : (addRoute s p nh4 nh6).2.2 with er | u
    · simpa using addRoute_metric s p nh4 nh6
    · simpa [ih] using addRoute_metric s p nh4 nh6

theorem installRoutes_trace (ps : List Pfx) :
    ∀ (s : SysState) (nh4 nh6 : String),
      ∀ e ∈ (installRoutes s ps nh4 nh6).1, ∃ d g, e = Ev.routeAdd d g := by
  induction ps with
  | nil => intro s nh4 nh6 e he; simp [installRoutes] at he
  | cons p rest ih =>
    intro s nh4 nh6 e he
    simp only [installRoutes] at he
    rcases h : (addRoute s p nh4 nh6).2.2 with er | u <;> rw [h] at he
    · exact addRoute_trace s p nh4 nh6 e (by simpa using he)
    · simp only [List.mem_append] at he
      rcases he with h1 | h2
      · exact addRoute_trace s p nh4 nh6 e h1
      · exact ih _ nh4 nh6 e h2

theorem installRoutes_routes_mono (ps : List Pfx) :
    ∀ (s : SysState) (nh4 nh6 : String),
      ∃ add, (installRoutes s ps nh4 nh6).2.1.routes = s.routes ++ add := by
  induction ps with
  | nil => intro s nh4 nh6; exact ⟨[], by simp [installRoutes]⟩
  | cons p rest ih =>
    intro s nh4 nh6
    obtain ⟨a1, ha1⟩ := addRoute_routes_mono s p nh4 nh6
    simp only [installRoutes]
    rcases h : (addRoute s p nh4 nh6).2.2 with er | u
    · exact ⟨a1, by simpa using ha1⟩
    · obtain ⟨a2, ha2⟩ := ih (addRoute s p nh4 nh6).2.1 nh4 nh6
      exact ⟨a1 ++ a2, by simp [ha2, ha1]⟩

theorem installRoutes_ok_installed (ps : List Pfx) :
    ∀ (s : SysState) (nh4 nh6 : String),
      (installRoutes s ps nh4 nh6).2.2 = .ok () →
      ∀ p ∈ ps, ∃ fd, p.parse = some fd ∧
        fd.2 ∈ (installRoutes s ps nh4 nh6).2.1.routes.map Prod.fst := by
  induction ps with
  | nil => intro s nh4 nh6 _ p hp; simp at hp
  | cons q rest ih =>
    intro s nh4 nh6 hok p hp
    rcases h : (addRoute s q nh4 nh6).2.2 with er | u
    · rw [show (installRoutes s (q :: rest) nh4 nh6) =
          ((addRoute s q nh4 nh6).1, (addRoute s q nh4 nh6).2.1, .error er) by
            simp only [installRoutes]; rw [h]] at hok
      simp at hok
    · have hinst : installRoutes s (q :: rest) nh4 nh6 =
          ((addRoute s q nh4 nh6).1 ++ (installRoutes (addRoute s q nh4 nh6).2.1 rest nh4 nh6).1,
           (installRoutes (addRoute s q nh4 nh6).2.1 rest nh4 nh6).2.1,
           (installRoutes (addRoute s q nh4 nh6).2.1 rest nh4 nh6).2.2) := by
        simp only [installRoutes]; rw [h]
      rw [hinst] at hok ⊢
      simp only at hok ⊢
      rcases List.mem_cons.mp hp with hq | hrest
      · subst hq
        obtain ⟨fd, nh, hparse, hroutes⟩ := addRoute_ok s p nh4 nh6 (by cases u; exact h)
        refine ⟨fd, hparse, ?_⟩
        obtain ⟨a2, ha2⟩ := installRoutes_routes_mono rest (addRoute s p nh4 nh6).2.1 nh4 nh6
        rw [ha2, hroutes]
        simp
      · obtain ⟨fd, hparse, hmem⟩ := ih (addRoute s q nh4 nh6).2.1 nh4 nh6 hok p hrest
        exact ⟨fd, hparse, hmem⟩

theorem routeDelOp_links (s : SysState) (dst : String) :
    (routeDelOp s dst).1.links = s.links := by
  simp only [routeDelOp]; split <;> rfl

theorem routeDelOp_metric (s : SysState) (dst : String) :
    (routeDelOp s dst).1.rerouteMetric = s.rerouteMetric := by
  simp only [routeDelOp]; split <;> rfl

theorem routeDelOp_routes_sub (s : SysState) (dst : String) :
    ∀ x ∈ (routeDelOp s dst).1.routes, x ∈ s.routes := by
  intro x hx
  by_cases hc : (s.routes.any fun r => r.1 = dst) = true
  · simp [routeDelOp, hc] at hx
    exact hx.1
  · simp [routeDelOp, hc] at hx
    exact hx

theorem routeDelOp_ok_removed (s : SysState) (dst : String)
    (h : (routeDelOp s dst).2 = .ok ()) :
    dst ∉ (routeDelOp s dst).1.routes.map Prod.fst := by
  by_cases hc : (s.routes.any fun r => r.1 = dst) = true
  · intro hmem
    simp [routeDelOp, hc, List.mem_map] at hmem
  · simp [routeDelOp, hc] at h

theorem removeRoutes_trace (ps : List Pfx) :
    ∀ (s : SysState), ∀ e ∈ (removeRoutes s ps).1, ∃ d, e = Ev.routeDel d := by
  induction ps with
  | nil => intro s e he; simp [removeRoutes] at he
  | cons p rest ih =>
    intro s e he
    cases hp : p.parse with
    | none => simp [removeRoutes, hp] at he
    | some fd =>
      simp only [removeRoutes, hp] at he
      rcases h : (routeDelOp s fd.2).2 with er | u <;> rw [h] at he
      · simp at he; exact ⟨fd.2, he⟩
      · simp only [List.mem_cons] at he
        rcases he with h1 | h2
        · exact ⟨fd.2, h1⟩
        · exact ih _ e h2

theorem removeRoutes_links (ps : List Pfx) :
    ∀ (s : SysState), (removeRoutes s ps).2.1.links = s.links := by
  induction ps with
  | nil => intro s; rfl
  | cons p rest ih =>
    intro s
    cases hp : p.parse with
    | none => simp [removeRoutes, hp]
    | some fd =>
      simp only [removeRoutes, hp]
      rcases h : (routeDelOp s fd.2).2 with er | u
      · simpa using routeDelOp_links s fd.2
      · simpa [ih] using routeDelOp_links s fd.2

theorem removeRoutes_metric (ps : List Pfx) :
    ∀ (s : SysState), (removeRoutes s ps).2.1.rerouteMetric = s.rerouteMetric := by
  induction ps with
  | nil => intro s; rfl
  | cons p rest ih =>
    intro s
    cases hp : p.parse with
    | none => simp [removeRoutes, hp]
    | some fd =>
      simp only [removeRoutes, hp]
      rcases h : (routeDelOp s fd.2).2 with er | u
      · simpa using routeDelOp_metric s fd.2
      · simpa [ih] using routeDelOp_metric s fd.2

theorem removeRoutes_routes_sub (ps : List Pfx) :
    ∀ (s : SysState), ∀ x ∈ (removeRoutes s ps).2.1.routes, x ∈ s.routes := by
  induction ps with
  | nil => intro s x hx; exact hx
  | cons p rest ih =>
    intro s x hx
    cases hp : p.parse with
    | none => simp [removeRoutes, hp] at hx; exact hx
    | some fd =>
      simp only [removeRoutes, hp] at hx
      rcases h : (routeDelOp s fd.2).2 with er | u <;> rw [h] at hx
      · exact routeDelOp_routes_sub s fd.2 x (by simpa using hx)
      · exact routeDelOp_routes_sub s fd.2 x (ih _ x (by simpa using hx))

theorem removeRoutes_ok_removed (ps : List Pfx) :
    ∀ (s : SysState), (removeRoutes s ps).2.2 = .ok () →
      ∀ p ∈ ps, ∃ fd, p.parse = some fd ∧
        fd.2 ∉ (removeRoutes s ps).2.1.routes.map Prod.fst := by
  induction ps with
  | nil => intro s _ p hp; simp at hp
  | cons q rest ih =>
    intro s hok p hp
    cases hq : q.parse with
    | none =>
      rw [show removeRoutes s (q :: rest) = ([], s, .error "invalid CIDR address") by
        simp [removeRoutes, hq]] at hok
      simp at hok
    | some fd =>
      rcases h : (routeDelOp s fd.2).2 with er | u
      · rw [show removeRoutes s (q :: rest) =
            ([Ev.routeDel fd.2], (routeDelOp s fd.2).1, .error er) by
          simp only [removeRoutes, hq]; rw [h]] at hok
        simp at hok
      · have hrem : removeRoutes s (q :: rest) =
            (Ev.routeDel fd.2 :: (removeRoutes (routeDelOp s fd.2).1 rest).1,
             (removeRoutes (routeDelOp s fd.2).1 rest).2.1,
             (removeRoutes (routeDelOp s fd.2).1 rest).2.2) := by
          simp only [removeRoutes, hq]; rw [h]
        rw [hrem] at hok ⊢
        simp only at hok ⊢
        rcases List.mem_cons.mp hp with hpq | hrest
        · subst hpq
          refine ⟨fd, hq, ?_⟩
          intro hmem
          simp only [List.mem_map] at hmem
          obtain ⟨x, hx, hx1⟩ := hmem
          have hx' := removeRoutes_routes_sub rest (routeDelOp s fd.2).1 x hx
          have hdel := routeDelOp_ok_removed s fd.2 (by cases u; exact h)
          exact hdel (List.mem_map.mpr ⟨x, hx', hx1⟩)
        · exact ih (routeDelOp s fd.2).1 hok p hrest

/-! Unfolding equations for the two directions of `setReroute`. -/

theorem setReroute_true_eq (env : Env) (ps : List Pfx) (nh4 nh6 : String)
    (s : SysState) :
    setReroute env true ps nh4 nh6 s =
      match (linkDelOp { s with rerouteMetric := 1 } "local").2 with
      | .error e => ([Ev.setMetric 1, Ev.linkDel "local"],
          (linkDelOp { s with rerouteMetric := 1 } "local").1, .error e)
      | .ok _ =>
        (Ev.setMetric 1 :: Ev.linkDel "local" ::
            (installRoutes (linkDelOp { s with rerouteMetric := 1 } "local").1
              ps nh4 nh6).1,
         (installRoutes (linkDelOp { s with rerouteMetric := 1 } "local").1
           ps nh4 nh6).2.1,
         (installRoutes (linkDelOp { s with rerouteMetric := 1 } "local").1
           ps nh4 nh6).2.2) := by
  simp only [setReroute, setPFNet]
  rcases h : (linkDelOp { s with rerouteMetric := 1 } "local").2 with er | u <;>
    simp [h]

theorem setReroute_false_eq (env : Env) (ps : List Pfx) (nh4 nh6 : String)
    (s : SysState) :
    setReroute env false ps nh4 nh6 s =
      match (removeRoutes s ps).2.2 with
      | .error e => ((removeRoutes s ps).1, (removeRoutes s ps).2.1, .error e)
      | .ok _ =>
        if env.netShOk then
          ((removeRoutes s ps).1 ++ [Ev.runNetSh, Ev.setMetric 0],
           { links := if "local" ∈ (removeRoutes s ps).2.1.links then
                 (removeRoutes s ps).2.1.links
               else "local" :: (removeRoutes s ps).2.1.links,
             routes := (removeRoutes s ps).2.1.routes,
             rerouteMetric := 0 },
           .ok ())
        else ((removeRoutes s ps).1 ++ [Ev.runNetSh], (removeRoutes s ps).2.1,
          .error "net.sh failed") := by
  simp only [setReroute, setPFNet]
  rcases h : (removeRoutes s ps).2.2 with er | u
  · simp [h]
  · cases hnet : env.netShOk <;> simp [h, hnet]

/-- Membership of "local" in a filtered link list is impossible. -/
theorem local_notMem_filter (l : List String) :
    "local" ∉ l.filter (fun x => x ≠ "local") := by
  intro hmem
  have := List.mem_filter.mp hmem
  simp at this

/-- Structure update with an unchanged gauge value is the identity. -/
theorem sysState_metric_eta (s : SysState) (h : s.rerouteMetric = 1) :
    { s with rerouteMetric := 1 } = s := by
  cases s
  simp_all

/-- Claim C4: in every execution of the reroute transition, entering the
rerouted state emits the local-handling disable (the deletion of the "local"
link) before any per-prefix route install — the trace is the gauge set, then
the disable, then only route installs; and leaving the rerouted state emits
every per-prefix route removal before local handling is re-enabled — the
trace is route removals followed only by the net.sh run and the gauge
reset. -/
theorem setReroute_ordering (env : Env) (ps : List Pfx) (nh4 nh6 : String)
    (s : SysState) :
    (∃ tr, (setReroute env true ps nh4 nh6 s).1 =
        Ev.setMetric 1 :: Ev.linkDel "local" :: tr ∧
        ∀ e ∈ tr, ∃ d g, e = Ev.routeAdd d g) ∧
    (∃ dels rest, (setReroute env false ps nh4 nh6 s).1 = dels ++ rest ∧
        (∀ e ∈ dels, ∃ d, e = Ev.routeDel d) ∧
        ∀ e ∈ rest, e = Ev.runNetSh ∨ e = Ev.setMetric 0) := by
  constructor
  · rw [setReroute_true_eq]
    rcases h : (linkDelOp { s with rerouteMetric := 1 } "local").2 with er | u
    · exact ⟨[], rfl, by simp⟩
    · refine ⟨(installRoutes (linkDelOp { s with rerouteMetric := 1 } "local").1
        ps nh4 nh6).1, rfl, ?_⟩
      exact installRoutes_trace ps _ nh4 nh6
  · rw [setReroute_false_eq]
    rcases h : (removeRoutes s ps).2.2 with er | u
    · refine ⟨(removeRoutes s ps).1, [], by simp, ?_, by simp⟩
      exact removeRoutes_trace ps s
    · cases hnet : env.netShOk
      · refine ⟨(removeRoutes s ps).1, [Ev.runNetSh], by simp [hnet], ?_, by simp⟩
        exact removeRoutes_trace ps s
      · refine ⟨(removeRoutes s ps).1, [Ev.runNetSh, Ev.setMetric 0],
          by simp [hnet], ?_, by simp⟩
        exact removeRoutes_trace ps s

/-- Witness for C4 at a concrete environment, prefix list and state. -/
theorem setReroute_ordering_wit :
    (∃ tr, (setReroute ⟨true⟩ true [Pfx.v4 "198.51.100.0/24"] "10.0.0.1" "fd00::1"
        ⟨["local"], [], 0⟩).1 = Ev.setMetric 1 :: Ev.linkDel "local" :: tr ∧
        ∀ e ∈ tr, ∃ d g, e = Ev.routeAdd d g) ∧
    (∃ dels rest, (setReroute ⟨true⟩ false [Pfx.v4 "198.51.100.0/24"] "10.0.0.1"
        "fd00::1" ⟨["local"], [], 0⟩).1 = dels ++ rest ∧
        (∀ e ∈ dels, ∃ d, e = Ev.routeDel d) ∧
        ∀ e ∈ rest, e = Ev.runNetSh ∨ e = Ev.setMetric 0) :=
  setReroute_ordering ⟨true⟩ [Pfx.v4 "198.51.100.0/24"] "10.0.0.1" "fd00::1"
    ⟨["local"], [], 0⟩

/-- Claim C7: `setReroute` reports success only when every step of the
transition completed. If the call returns ok in the entering direction, the
local-handling disable succeeded (the "local" link existed and is gone) and
every configured prefix parsed and has an installed route in the final
state; if it returns ok in the leaving direction, every configured prefix
parsed and has no route left, and local handling was re-enabled (net.sh ran
successfully and the "local" link is present). Any step's failure is
returned as an error, so partial application is never reported as
success. -/
theorem setReroute_ok_total (env : Env) (reroute : Bool) (ps : List Pfx)
    (nh4 nh6 : String) (s : SysState)
    (h : (setReroute env reroute ps nh4 nh6 s).2.2 = .ok ()) :
    (reroute = true →
      "local" ∈ s.links ∧
      "local" ∉ (setReroute env reroute ps nh4 nh6 s).2.1.links ∧
      ∀ p ∈ ps, ∃ fd, p.parse = some fd ∧
        fd.2 ∈ (setReroute env reroute ps nh4 nh6 s).2.1.routes.map Prod.fst) ∧
    (reroute = false →
      env.netShOk = true ∧
      "local" ∈ (setReroute env reroute ps nh4 nh6 s).2.1.links ∧
      ∀ p ∈ ps, ∃ fd, p.parse = some fd ∧
        fd.2 ∉ (setReroute env reroute ps nh4 nh6 s).2.1.routes.map Prod.fst) := by
  constructor
  · intro hr
    subst hr
    rw [setReroute_true_eq] at h ⊢
    by_cases hmem : "local" ∈ s.links
    · have hld : linkDelOp { s with rerouteMetric := 1 } "local" =
          (⟨s.links.filter (fun l => l ≠ "local"), s.routes, 1⟩, .ok ()) := by
        simp [linkDelOp, hmem]
      rw [hld] at h ⊢
      simp only at h ⊢
      refine ⟨hmem, ?_, ?_⟩
      · rw [installRoutes_links]
        exact local_notMem_filter s.links
      · exact installRoutes_ok_installed ps _ nh4 nh6 h
    · have hld : linkDelOp { s with rerouteMetric := 1 } "local" =
          ({ s with rerouteMetric := 1 }, .error "Link not found") := by
        simp [linkDelOp, hmem]
      rw [hld] at h
      simp at h
  · intro hr
    subst hr
    have hfe := setReroute_false_eq env ps nh4 nh6 s
    rcases hrem : (removeRoutes s ps).2.2 with er | u
    · rw [hfe, hrem] at h
      simp at h
    · cases u
      cases hnet : env.netShOk
      · rw [hfe, hrem, hnet] at h
        simp at h
      · have hA : setReroute env false ps nh4 nh6 s =
            ((removeRoutes s ps).1 ++ [Ev.runNetSh, Ev.setMetric 0],
             { links := if "local" ∈ (removeRoutes s ps).2.1.links then
                   (removeRoutes s ps).2.1.links
                 else "local" :: (removeRoutes s ps).2.1.links,
               routes := (removeRoutes s ps).2.1.routes,
               rerouteMetric := 0 },
             .ok ()) := by
          rw [hfe, hrem, hnet]
          simp
        rw [hA]
        refine ⟨rfl, ?_, ?_⟩
        · dsimp only
          split
          · assumption
          · exact List.mem_cons_self _ _
        · simpa using removeRoutes_ok_removed ps s hrem

/-- Witness for C7: a concrete successful entering transition, with its
completion facts. -/
theorem setReroute_ok_total_wit :
    "local" ∈ (⟨["local"], [], 0⟩ : SysState).links ∧
    "local" ∉ (setReroute ⟨true⟩ true [Pfx.v4 "203.0.113.0/24"] "10.0.0.9"
      "fd00::9" ⟨["local"], [], 0⟩).2.1.links ∧
    ∀ p ∈ [Pfx.v4 "203.0.113.0/24"], ∃ fd, p.parse = some fd ∧
      fd.2 ∈ (setReroute ⟨true⟩ true [Pfx.v4 "203.0.113.0/24"] "10.0.0.9"
        "fd00::9" ⟨["local"], [], 0⟩).2.1.routes.map Prod.fst :=
  (setReroute_ok_total ⟨true⟩ true [Pfx.v4 "203.0.113.0/24"] "10.0.0.9" "fd00::9"
    ⟨["local"], [], 0⟩ (by rfl)).1 rfl

/-- Claim C5 counterexample: a concrete state with local handling enabled and
no routes. The first `setReroute` toward a peer succeeds, but the immediate
second identical call returns the user-visible error "Link not found" (from
deleting the already-absent "local" link), contradicting the claim that the
second call returns no user-visible error. -/
theorem setReroute_twice_cex :
    (setReroute ⟨true⟩ true [Pfx.v4 "198.51.100.0/24"] "10.0.0.2" "fd00::2"
        ⟨["local"], [], 0⟩).2.2 = Except.ok () ∧
    (setReroute ⟨true⟩ true [Pfx.v4 "198.51.100.0/24"] "10.0.0.2" "fd00::2"
        ((setReroute ⟨true⟩ true [Pfx.v4 "198.51.100.0/24"] "10.0.0.2" "fd00::2"
          ⟨["local"], [], 0⟩).2.1)).2.2 = Except.error "Link not found" :=
  ⟨rfl, rfl⟩

/-- Claim C5 (amended): whenever `setReroute(P)` succeeds, immediately calling
it again with the same arguments leaves the final state exactly as after the
first call (the route table converges, no duplicate entries are installed)
but the second call returns an error — the local-handling disable fails
because the "local" link is already gone — rather than reporting success. -/
theorem setReroute_twice (env : Env) (ps : List Pfx) (nh4 nh6 : String)
    (s : SysState)
    (h : (setReroute env true ps nh4 nh6 s).2.2 = .ok ()) :
    (setReroute env true ps nh4 nh6 ((setReroute env true ps nh4 nh6 s).2.1)).2.1
        = (setReroute env true ps nh4 nh6 s).2.1 ∧
    (setReroute env true ps nh4 nh6 ((setReroute env true ps nh4 nh6 s).2.1)).2.2
        = Except.error "Link not found" := by
  have hfe := setReroute_true_eq env ps nh4 nh6 s
  by_cases hmem : "local" ∈ s.links
  · have hld : linkDelOp { s with rerouteMetric := 1 } "local" =
        (⟨s.links.filter (fun l => l ≠ "local"), s.routes, 1⟩, .ok ()) := by
      simp [linkDelOp, hmem]
    rw [hfe, hld] at h ⊢
    simp only at h ⊢
    set s1 := (installRoutes ⟨s.links.filter (fun l => l ≠ "local"), s.routes, 1⟩
      ps nh4 nh6).2.1 with hs1
    have hlinks : s1.links = s.links.filter (fun l => l ≠ "local") := by
      rw [hs1, installRoutes_links]
    have hnotmem : "local" ∉ s1.links := by
      rw [hlinks]; exact local_notMem_filter s.links
    have hmetric : s1.rerouteMetric = 1 := by
      rw [hs1, installRoutes_metric]
    have heta : { s1 with rerouteMetric := 1 } = s1 := sysState_metric_eta s1 hmetric
    have hld2 : linkDelOp { s1 with rerouteMetric := 1 } "local" =
        ({ s1 with rerouteMetric := 1 }, .error "Link not found") := by
      have : "local" ∉ SysState.links { s1 with rerouteMetric := 1 } := by
        simpa using hnotmem
      simp [linkDelOp, this]
    rw [setReroute_true_eq, hld2, heta]
    exact ⟨rfl, rfl⟩
  · have hld : linkDelOp { s with rerouteMetric := 1 } "local" =
        ({ s with rerouteMetric := 1 }, .error "Link not found") := by
      simp [linkDelOp, hmem]
    rw [hfe, hld] at h
    simp at h

/-- Witness for C5's amended theorem at a concrete first call. -/
theorem setReroute_twice_wit :
    (setReroute ⟨true⟩ true [Pfx.v4 "203.0.113.128/25"] "10.0.0.3" "fd00::3"
        ((setReroute ⟨true⟩ true [Pfx.v4 "203.0.113.128/25"] "10.0.0.3" "fd00::3"
          ⟨["local"], [], 0⟩).2.1)).2.1
      = (setReroute ⟨true⟩ true [Pfx.v4 "203.0.113.128/25"] "10.0.0.3" "fd00::3"
          ⟨["local"], [], 0⟩).2.1 ∧
    (setReroute ⟨true⟩ true [Pfx.v4 "203.0.113.128/25"] "10.0.0.3" "fd00::3"
        ((setReroute ⟨true⟩ true [Pfx.v4 "203.0.113.128/25"] "10.0.0.3" "fd00::3"
          ⟨["local"], [], 0⟩).2.1)).2.2 = Except.error "Link not found" :=
  setReroute_twice ⟨true⟩ [Pfx.v4 "203.0.113.128/25"] "10.0.0.3" "fd00::3"
    ⟨["local"], [], 0⟩ (by rfl)

/-- Invariant of the `closestNode` scan: starting from a retained entry, the
fold returns a retained entry that is either the start or a list member,
never has larger latency than the start, and has minimal latency among the
scanned entries. -/
theorem closestStep_fold (l : List (String × Node)) :
    ∀ (c : Node) (cn : String),
      ∃ n nm, l.foldl closestStep (some c, cn) = (some n, nm) ∧
        ((nm, n) = (cn, c) ∨ (nm, n) ∈ l) ∧ n.latency ≤ c.latency ∧
        ∀ e ∈ l, n.latency ≤ e.2.latency := by
  induction l with
  | nil => intro c cn; exact ⟨c, cn, rfl, Or.inl rfl, le_refl _, by simp⟩
  | cons x xs ih =>
    intro c cn
    by_cases hlt : x.2.latency < c.latency
    · have hstep : closestStep (some c, cn) x = (some x.2, x.1) := by
        simp [closestStep, hlt]
      obtain ⟨n, nm, heq, hmem, hle, hall⟩ := ih x.2 x.1
      refine ⟨n, nm, ?_, ?_, ?_, ?_⟩
      · rw [List.foldl_cons, hstep]; exact heq
      · rcases hmem with h1 | h1
        · exact Or.inr (by simp [h1])
        · exact Or.inr (List.mem_cons_of_mem _ h1)
      · exact le_trans hle (le_of_lt hlt)
      · intro e he
        rcases List.mem_cons.mp he with rfl | h2
        · exact hle
        · exact hall e h2
    · have hstep : closestStep (some c, cn) x = (some c, cn) := by
        simp [closestStep, hlt]
      obtain ⟨n, nm, heq, hmem, hle, hall⟩ := ih c cn
      refine ⟨n, nm, ?_, ?_, hle, ?_⟩
      · rw [List.foldl_cons, hstep]; exact heq
      · rcases hmem with h1 | h1
        · exact Or.inl h1
        · exact Or.inr (List.mem_cons_of_mem _ h1)
      · intro e he
        rcases List.mem_cons.mp he with rfl | h2
        · exact le_trans hle (not_lt.mp hlt)
        · exact hall e h2

/-- Claim C3 (amended): `closestNode` on the empty map returns (none, "");
on a non-empty map it returns an entry of the map whose latency is minimal.
The entry retained among latency ties is the first in iteration order, not
the one with the lowest peer ID, so the result depends on the map's
iteration order and is not a function of the set's contents alone. -/
theorem closestNode_min :
    closestNode ([] : List (String × Node)) = (none, "") ∧
    ∀ cands : List (String × Node), cands ≠ [] →
      ∃ n nm, closestNode cands = (some n, nm) ∧ (nm, n) ∈ cands ∧
        ∀ e ∈ cands, n.latency ≤ e.2.latency := by
  refine ⟨rfl, ?_⟩
  intro cands hne
  cases cands with
  | nil => exact absurd rfl hne
  | cons x xs =>
    have h0 : closestNode (x :: xs) = xs.foldl closestStep (some x.2, x.1) := rfl
    obtain ⟨n, nm, heq, hmem, hle, hall⟩ := closestStep_fold xs x.2 x.1
    refine ⟨n, nm, by rw [h0, heq], ?_, ?_⟩
    · rcases hmem with h1 | h1
      · rw [h1]; simp
      · exact List.mem_cons_of_mem _ h1
    · intro e he
      rcases List.mem_cons.mp he with rfl | h2
      · exact hle
      · exact hall e h2

/-- Claim C3 counterexample: two candidates with equal (minimal) latency.
In the iteration order that lists peer "c" (ID 3) first, `closestNode`
returns "c", not the lowest-ID peer "b" (ID 2); and the two iteration orders
of the same two-element set give different results, so the function is not
determined by the set's contents. -/
theorem closestNode_tiebreak_cex :
    closestNode [("c", ⟨3, "192.0.2.3", 5000000⟩), ("b", ⟨2, "192.0.2.2", 5000000⟩)]
        = (some ⟨3, "192.0.2.3", 5000000⟩, "c") ∧
    (⟨2, "192.0.2.2", 5000000⟩ : Node).latency
        = (⟨3, "192.0.2.3", 5000000⟩ : Node).latency ∧
    (⟨2, "192.0.2.2", 5000000⟩ : Node).id < (⟨3, "192.0.2.3", 5000000⟩ : Node).id ∧
    closestNode [("b", ⟨2, "192.0.2.2", 5000000⟩), ("c", ⟨3, "192.0.2.3", 5000000⟩)]
        ≠ closestNode [("c", ⟨3, "192.0.2.3", 5000000⟩), ("b", ⟨2, "192.0.2.2", 5000000⟩)] := by
  refine ⟨rfl, rfl, by decide, ?_⟩
  decide

/-- Witness for C3's amended theorem on a concrete non-empty candidate
list. -/
theorem closestNode_min_wit :
    ∃ n nm, closestNode [("c", (⟨3, "10.1.0.3", 7000000⟩ : Node)),
        ("b", ⟨2, "10.1.0.2", 7000000⟩)] = (some n, nm) ∧
      (nm, n) ∈ [("c", (⟨3, "10.1.0.3", 7000000⟩ : Node)),
        ("b", ⟨2, "10.1.0.2", 7000000⟩)] ∧
      ∀ e ∈ [("c", (⟨3, "10.1.0.3", 7000000⟩ : Node)),
        ("b", ⟨2, "10.1.0.2", 7000000⟩)], n.latency ≤ e.2.latency :=
  closestNode_min.2 _ (by decide)

/-- Claim C6 counterexample: with 3 probes sent, none answered, and no
transport error, the prober returns loss 100 — go-ping's percentage scale —
not the fraction 1.0 the claim states. -/
theorem icmpLatency_total_loss_cex :
    icmpLatency true 3 [] = (0, 100, none) ∧ (100 : ℚ) ≠ 1 := by
  constructor
  · norm_num [icmpLatency, avgRtt, packetLossPercent]
  · norm_num

/-- Claim C6 (amended): when every probe goes unanswered but no transport
error occurs, the prober reports average latency 0 and loss 100.0 (a
percentage, not the fraction 1.0), with a nil error — so the result flows
into the normal threshold test instead of aborting the cycle. -/
theorem icmpLatency_total_loss (sent : Nat) (h : 0 < sent) :
    icmpLatency true sent [] = (0, 100, none) := by
  have hs : (sent : ℚ) ≠ 0 := by
    exact_mod_cast Nat.pos_iff_ne_zero.mp h
  simp [icmpLatency, avgRtt, packetLossPercent, div_self hs]

/-- Witness for C6's amended theorem at the code's probe count of 3. -/
theorem icmpLatency_total_loss_wit : icmpLatency true 3 [] = (0, 100, none) :=
  icmpLatency_total_loss 3 (by decide)

/-- Claim C8 counterexample: two matching interfaces where the first deletion
fails. Teardown returns that error immediately and never attempts the second
matching interface, contradicting "does not abort deletion of the remaining
matching interfaces". -/
theorem teardownGRE_abort_cex :
    teardownGRE (fun _ => false) ["fd-a", "fd-b"]
        = (["fd-a"], some "error deleting fd-a") ∧
    "fd-b" ∉ (teardownGRE (fun _ => false) ["fd-a", "fd-b"]).1 :=
  ⟨rfl, by decide⟩

/-- Claim C8 (amended): teardown on a system with no matching interface
succeeds (absence is not an error), but a failed deletion of a matching
interface is returned as an error and aborts the teardown — interfaces after
the failing one are never attempted. -/
theorem teardownGRE_amended (delOk : String → Bool) :
    (∀ links : List String, (∀ l ∈ links, hasPrefixStr l "fd-" = false) →
      teardownGRE delOk links = ([], none)) ∧
    (∀ (l : String) (rest : List String),
      hasPrefixStr l "fd-" = true → delOk l = false →
      teardownGRE delOk (l :: rest) = ([l], some ("error deleting " ++ l))) := by
  constructor
  · intro links hnone
    induction links with
    | nil => rfl
    | cons x xs ih =>
      have hx := hnone x (List.mem_cons_self _ _)
      simp only [teardownGRE, hx]
      simp only [Bool.false_eq_true, if_false]
      exact ih (fun l hl => hnone l (List.mem_cons_of_mem _ hl))
  · intro l rest hpre hok
    simp [teardownGRE, hpre, hok]

/-- Witness for C8's amended theorem: an empty-match teardown and an aborting
teardown, both concrete. -/
theorem teardownGRE_amended_wit :
    teardownGRE (fun _ => false) ["eth0", "lo"] = ([], none) ∧
    teardownGRE (fun _ => false) ["fd-x", "fd-y"]
        = (["fd-x"], some "error deleting fd-x") :=
  ⟨(teardownGRE_amended (fun _ => false)).1 ["eth0", "lo"] (by decide),
   (teardownGRE_amended (fun _ => false)).2 "fd-x" ["fd-y"] (by rfl) (by rfl)⟩

/-- Claim C1, evaluated at the failing input. With thresholds 100 ms and 0.1
and a stored candidate sample of 50 ms for peer "b", a tick whose prober
call fails (so `icmpLatency` hands back latency 0 and loss 0 alongside the
error) does not retain the prior sample: the loop merely logs and falls
through to the threshold test with the zero values, overwriting peer "b"'s
record with latency 0 and keeping it a candidate. -/
theorem probeError_zeroes_sample :
    tickUpdate ⟨1, "172.16.0.", "fd00::", 100000000, 1/10, [], []⟩
        [("b", ⟨2, "192.0.2.2", 50000000⟩)] "b" ⟨2, "192.0.2.2", 0⟩
        (icmpLatency false 3 [])
      = [("b", ⟨2, "192.0.2.2", 0⟩)] ∧
    [("b", (⟨2, "192.0.2.2", 0⟩ : Node))] ≠ [("b", ⟨2, "192.0.2.2", 50000000⟩)] := by
  constructor
  · norm_num [tickUpdate, mapInsert, icmpLatency]
  · decide

/-- Claim C2: with an empty candidate set and no `to` parameter, the /reroute
handler dereferences the nil *Node returned by `closestNode` and panics
before any state change; no "no candidate available" response exists in the
code. -/
theorem rerouteHandler_empty_panics (cfg : Config) (env : Env) (s : SysState) :
    rerouteHandler cfg [] "" env s = (HandlerResult.nilPanic, s) := rfl

/-- Claim C10: a /reroute call naming a peer absent from the configuration is
not rejected. The handler proceeds with the zero-valued Node (ID 0), derives
the nexthops from ID 0 (each configured address stem followed by "0"), and
reports "Rerouting to ..." success exactly when the underlying `setReroute`
succeeds, otherwise the setReroute error. -/
theorem rerouteHandler_unknown_peer (cfg : Config) (cands : List (String × Node))
    (toParam : String) (env : Env) (s : SysState)
    (h1 : toParam ≠ "") (h2 : cfg.nodes.lookup toParam = none) :
    goMapGet cfg.nodes toParam = { id := 0, ip := "", latency := 0 } ∧
    internalIP cfg.prefix4 0 0 = cfg.prefix4 ++ "0" ∧
    rerouteHandler cfg cands toParam env s =
      (match (setReroute env true cfg.prefixes (internalIP cfg.prefix4 0 0)
          (internalIP cfg.prefix6 0 0) s).2.2 with
       | .ok _ => (HandlerResult.body ("Rerouting to " ++ toParam ++ "\n"),
           (setReroute env true cfg.prefixes (internalIP cfg.prefix4 0 0)
             (internalIP cfg.prefix6 0 0) s).2.1)
       | .error e =>
           (HandlerResult.body ("Error rerouting to " ++ toParam ++ ": " ++ e ++ "\n"),
            (setReroute env true cfg.prefixes (internalIP cfg.prefix4 0 0)
              (internalIP cfg.prefix6 0 0) s).2.1)) := by
  have hget : goMapGet cfg.nodes toParam = { id := 0, ip := "", latency := 0 } := by
    simp [goMapGet, h2]
  refine ⟨hget, rfl, ?_⟩
  simp only [rerouteHandler, if_neg h1, hget]

/-- Witness for C10 at a concrete configuration that lacks the peer name
"ghost". -/
theorem rerouteHandler_unknown_peer_wit :
    goMapGet [("n1", (⟨1, "192.0.2.1", 0⟩ : Node))] "ghost"
        = { id := 0, ip := "", latency := 0 } ∧
    internalIP "172.16.0." 0 0 = "172.16.0." ++ "0" ∧
    rerouteHandler ⟨7, "172.16.0.", "fd00:17::", 100000000, 1/10,
        [Pfx.v4 "198.18.0.0/15"], [("n1", ⟨1, "192.0.2.1", 0⟩)]⟩ [] "ghost"
        ⟨true⟩ ⟨["local"], [], 0⟩ =
      (match (setReroute ⟨true⟩ true [Pfx.v4 "198.18.0.0/15"]
          (internalIP "172.16.0." 0 0) (internalIP "fd00:17::" 0 0)
          ⟨["local"], [], 0⟩).2.2 with
       | .ok _ => (HandlerResult.body ("Rerouting to " ++ "ghost" ++ "\n"),
           (setReroute ⟨true⟩ true [Pfx.v4 "198.18.0.0/15"]
             (internalIP "172.16.0." 0 0) (internalIP "fd00:17::" 0 0)
             ⟨["local"], [], 0⟩).2.1)
       | .error e =>
           (HandlerResult.body ("Error rerouting to " ++ "ghost" ++ ": " ++ e ++ "\n"),
            (setReroute ⟨true⟩ true [Pfx.v4 "198.18.0.0/15"]
              (internalIP "172.16.0." 0 0) (internalIP "fd00:17::" 0 0)
              ⟨["local"], [], 0⟩).2.1)) :=
  rerouteHandler_unknown_peer
    ⟨7, "172.16.0.", "fd00:17::", 100000000, 1/10, [Pfx.v4 "198.18.0.0/15"],
      [("n1", ⟨1, "192.0.2.1", 0⟩)]⟩
    [] "ghost" ⟨true⟩ ⟨["local"], [], 0⟩ (by decide) (by rfl)

end FabricDirector
